import Mathlib

/-!
Verification of the credential-resolution and batch-fetch logic of the
rubygems-client-go library.  Go strings are modelled as lists of characters
(`Str`), Go maps as association lists with overwriting insertion, `nil`
pointers as `Option`, and the process-wide memoized config cache as explicit
state passing.  The HTTP fetch/decode pipeline is an external collaborator and
is modelled as a function parameter.
-/

set_option autoImplicit false

namespace RubygemsClient

/-- A Go string, modelled as its list of characters. -/
abbrev Str := List Char

/-- `const tokenUsername = "any"` from credentials.go. -/
def tokenUsername : Str := ("any".toList)

/-- Count of occurrences of a character, modelling `strings.Count` for a
single-character pattern. -/
def countCh (s : Str) (c : Char) : Nat :=
  s.countP (fun x => decide (x = c))

/-- Index of the first character satisfying `p`, modelling `strings.Index`
for a single-character pattern. -/
def fstIdx (p : Char → Bool) : Str → Option Nat
  | [] => none
  | c :: cs => if p c then some 0 else (fstIdx p cs).map (· + 1)

/-- Index of the last `:` in the string, modelling `strings.LastIndex(host, ":")`. -/
def lastColonIdx : Str → Option Nat
  | [] => none
  | c :: cs =>
    match lastColonIdx cs with
    | some i => some (i + 1)
    | none => if c = ':' then some 0 else none

/-- Split at the first `:`: `some (before, after)` when a colon occurs,
`none` otherwise.  Models `strings.Index(value, ":")` together with the
slices `value[:idx]` and `value[idx+1:]`. -/
def splitFirstColon : Str → Option (Str × Str)
  | [] => none
  | c :: cs =>
    if c = ':' then some ([], cs)
    else
      match splitFirstColon cs with
      | some (l, r) => some (c :: l, r)
      | none => none

/-- `strings.ReplaceAll` for a single-character pattern: every occurrence of
`c` is replaced by the string `rep`. -/
def replaceAll (s : Str) (c : Char) (rep : Str) : Str :=
  match s with
  | [] => []
  | x :: xs => (if x = c then rep else [x]) ++ replaceAll xs c rep

/-- `Credentials` struct from credentials.go; absent fields default to the
empty string as in Go. -/
structure Credentials where
  Username : Str := []
  Password : Str := []
  Token : Str := []
deriving DecidableEq, Repr

/-- `parseCredentialValue` from credentials.go: empty value yields no
credential; `"any:tok"` yields token auth, `"user:pass"` basic auth,
a colon-free value a bare token. -/
def parseCredentialValue (value : Str) : Option Credentials :=
  if value = [] then none
  else
    match splitFirstColon value with
    | some (username, password) =>
      if username = tokenUsername then
        some { Username := tokenUsername, Password := password, Token := password }
      else
        some { Username := username, Password := password }
    | none => some { Token := value }

/-- The port/bracket-stripping phase of `hostToEnvKey` (credentials.go):
a bracketed host keeps the part between the first `[` and the first `]`;
a host with exactly one colon is cut at that colon; anything else passes
through unchanged. -/
def stripHostPort (host : Str) : Str :=
  if host.head? = some '[' then
    match fstIdx (fun c => decide (c = ']')) host with
    | some e => (host.take e).drop 1
    | none => host
  else
    if countCh host ':' = 1 then
      match lastColonIdx host with
      | some idx => host.take idx
      | none => host
    else host

/-- The replacement/uppercase phase of `hostToEnvKey`:
`.` → `__`, `-` → `___`, uppercase, prepended marker. -/
def envKeyOf (host : Str) : Str :=
  let key := replaceAll host '.' ("__".toList)
  let key := replaceAll key '-' ("___".toList)
  ("BUNDLE_".toList) ++ key.map Char.toUpper

/-- `hostToEnvKey` from credentials.go: strip port/brackets, then replace
and uppercase. -/
def hostToEnvKey (host : Str) : Str :=
  envKeyOf (stripHostPort host)

/-! ### Config-file loader (bundle config parsing) -/

/-- Left-and-right whitespace trim, modelling `strings.TrimSpace`. -/
def trimSpace (s : Str) : Str :=
  ((s.dropWhile Char.isWhitespace).reverse.dropWhile Char.isWhitespace).reverse

/-- `trimQuotes` from the config loader: strips one layer of surrounding
quotes when the string has length at least 2 and both ends are the same
quote character. -/
def trimQuotes (s : Str) : Str :=
  if 2 ≤ s.length ∧
      ((s.head? = some '"' ∧ s.getLast? = some '"') ∨
       (s.head? = some '\'' ∧ s.getLast? = some '\'')) then
    (s.drop 1).dropLast
  else s

/-- Drop a trailing carriage return, as `bufio.ScanLines` does. -/
def dropCR (l : Str) : Str :=
  if l.getLast? = some '\r' then l.dropLast else l

/-- Split a document into lines as `bufio.Scanner` with `ScanLines` does:
split at `\n`, drop the empty token after a trailing newline, strip a
trailing `\r` from each line; the empty document has no lines. -/
def splitLines (s : Str) : List Str :=
  if s = [] then []
  else
    let parts := s.splitOn '\n'
    let parts := if s.getLast? = some '\n' then parts.dropLast else parts
    parts.map dropCR

/-- Association-list map over string keys; `alInsert` overwrites an existing
binding, modelling Go map assignment. -/
def alInsert {α : Type} (m : List (Str × α)) (k : Str) (v : α) : List (Str × α) :=
  (k, v) :: m.filter (fun p => decide (p.1 ≠ k))

/-- Association-list lookup, modelling Go map indexing (`nil`/absence as
`none`). -/
def alFind {α : Type} (m : List (Str × α)) (k : Str) : Option α :=
  match m with
  | [] => none
  | p :: rest => if p.1 = k then some p.2 else alFind rest k

/-- The loop body of `parseBundleConfigYAML`: trim the line, skip blanks,
`#` comments and the lone `---` marker, split at the first colon, trim key
and value, unquote the value, and keep the entry only for `BUNDLE_`-prefixed
keys. -/
def processLine (result : List (Str × Str)) (rawLine : Str) : List (Str × Str) :=
  let line := trimSpace rawLine
  if line = [] ∨ line.head? = some '#' ∨ line = ("---".toList) then result
  else
    match splitFirstColon line with
    | none => result
    | some (k, v) =>
      let key := trimSpace k
      let value := trimQuotes (trimSpace v)
      if ("BUNDLE_".toList).isPrefixOf key then alInsert result key value
      else result

/-- `parseBundleConfigYAML` from the config loader.  `scanErr` models the
`scanner.Err()` outcome after the loop: on a scan error the function returns
an empty map. -/
def parseBundleConfigYAML (data : Str) (scanErr : Bool) : List (Str × Str) :=
  let result := (splitLines data).foldl processLine []
  if scanErr then [] else result

/-- `BundleConfig` struct: parsed credentials keyed by `BUNDLE_<HOST>`. -/
structure BundleConfig where
  credentials : List (Str × Credentials)
deriving DecidableEq, Repr

/-- The step adding one parsed YAML entry to the credentials map
(the loop body of `parseConfigFile`): entries whose value parses to no
credential are dropped. -/
def addCredential (m : List (Str × Credentials)) (kv : Str × Str) :
    List (Str × Credentials) :=
  match parseCredentialValue kv.2 with
  | some creds => alInsert m kv.1 creds
  | none => m

/-- `parseConfigFile`: build the credentials map from the parsed YAML
entries; a file with zero credential entries yields `none` (the Go code
returns `nil`). -/
def parseConfigFile (data : Str) (scanErr : Bool) : Option BundleConfig :=
  let credentials := (parseBundleConfigYAML data scanErr).foldl addCredential []
  if credentials = [] then none else some ⟨credentials⟩

/-- The file-system and environment state a process runs in.  `localFile`
and `globalFile` are the contents of the two config files, `none` when the
read fails (or the file is absent); `env` models `os.Getenv`, returning the
empty string for unset variables. -/
structure World where
  localFile : Option Str
  globalFile : Option Str
  env : Str → Str

/-- `loadConfigs`: each config that reads successfully is parsed; a failed
read leaves that config `nil`.  Returns (local, global). -/
def loadConfigs (w : World) (scanErrL scanErrG : Bool) :
    Option BundleConfig × Option BundleConfig :=
  (match w.localFile with
   | some data => parseConfigFile data scanErrL
   | none => none,
   match w.globalFile with
   | some data => parseConfigFile data scanErrG
   | none => none)

/-! ### Credential resolver -/

/-- `(*BundleConfig).CredentialsForHost`, with the `nil` receiver modelled
as `none`. -/
def CredentialsForHost (c : Option BundleConfig) (host : Str) : Option Credentials :=
  match c with
  | none => none
  | some cfg => alFind cfg.credentials (hostToEnvKey host)

/-- `CredentialsFromEnv`: look up the `BUNDLE_<HOST>` variable; empty means
no credential, otherwise parse the value. -/
def CredentialsFromEnv (env : Str → Str) (host : Str) : Option Credentials :=
  let value := env (hostToEnvKey host)
  if value = [] then none
  else parseCredentialValue value

/-- `CredentialsFor` from credentials.go, with the two memoized getters
replaced by the configs they return: local config first, then environment,
then global config, else none. -/
def CredentialsFor (localConfig globalConfig : Option BundleConfig)
    (env : Str → Str) (host : Str) : Option Credentials :=
  match CredentialsForHost localConfig host with
  | some creds => some creds
  | none =>
    match CredentialsFromEnv env host with
    | some creds => some creds
    | none => CredentialsForHost globalConfig host

/-! ### Memoized config cache -/

/-- The process-wide mutable state of the config cache: the two parsed
configs, the `sync.Once` flag, and an instrumentation counter recording how
many times `loadConfigs` has run (not a Go variable; it counts parses so the
at-most-once property can be stated). -/
structure ConfigCache where
  localConfig : Option BundleConfig
  globalConfig : Option BundleConfig
  loadedOnce : Bool
  loadCount : Nat
deriving Repr

/-- The fresh state at process start. -/
def initialCache : ConfigCache :=
  { localConfig := none, globalConfig := none, loadedOnce := false, loadCount := 0 }

/-- `configLoadedOnce.Do(loadConfigs)`: runs `loadConfigs` only on the first
call. -/
def onceDo (w : World) (eL eG : Bool) (c : ConfigCache) : ConfigCache :=
  if c.loadedOnce then c
  else
    let (l, g) := loadConfigs w eL eG
    { localConfig := l, globalConfig := g, loadedOnce := true,
      loadCount := c.loadCount + 1 }

/-- `GetLocalBundleConfig`: ensure the configs are loaded and return the
local one, together with the updated cache. -/
def GetLocalBundleConfig (w : World) (eL eG : Bool) (c : ConfigCache) :
    Option BundleConfig × ConfigCache :=
  let c := onceDo w eL eG c
  (c.localConfig, c)

/-- `GetGlobalBundleConfig`: ensure the configs are loaded and return the
global one, together with the updated cache. -/
def GetGlobalBundleConfig (w : World) (eL eG : Bool) (c : ConfigCache) :
    Option BundleConfig × ConfigCache :=
  let c := onceDo w eL eG c
  (c.globalConfig, c)

/-- `ResetConfigCache`: clears both configs and re-arms the `sync.Once`.
The instrumentation counter is not part of the Go state and is left alone. -/
def ResetConfigCache (c : ConfigCache) : ConfigCache :=
  { localConfig := none, globalConfig := none, loadedOnce := false,
    loadCount := c.loadCount }

/-- The stateful `CredentialsFor`: the getters fire the one-time load, after
which resolution proceeds on the cached configs. -/
def CredentialsForSt (w : World) (eL eG : Bool) (host : Str) (c : ConfigCache) :
    Option Credentials × ConfigCache :=
  let c := onceDo w eL eG c
  (CredentialsFor c.localConfig c.globalConfig w.env host, c)

/-! ### Client: gem metadata fetching -/

/-- `Dependency` struct from client.go. -/
structure Dependency where
  Name : Str
  Requirements : Str
deriving DecidableEq, Repr

/-- `DependencyCategories` struct from client.go. -/
structure DependencyCategories where
  Development : List Dependency
  Runtime : List Dependency
deriving DecidableEq, Repr

/-- `GemInfo` struct from client.go. -/
structure GemInfo where
  Name : Str
  Version : Str
  Dependencies : DependencyCategories
deriving DecidableEq, Repr

/-- `GemInfoRequest` struct from client.go. -/
structure GemInfoRequest where
  Name : Str
  Version : Str
deriving DecidableEq, Repr

/-- `GemInfoResult` struct from client.go: the original request plus either
a record or an error (`nil` pointers as `none`). -/
structure GemInfoResult where
  Request : GemInfoRequest
  Info : Option GemInfo
  Error : Option Str
deriving DecidableEq, Repr

/-- `GetGemInfo` from client.go.  The URL construction, HTTP round trip,
status check and JSON decode are the external collaborator, modelled by
`fetchGem`, which maps a gem name to a decoded record or an error.  On
success the code overwrites the decoded record's `Version` and `Name` with
the requested ones. -/
def GetGemInfo (fetchGem : Str → Except Str GemInfo) (name version : Str) :
    Except Str GemInfo :=
  match fetchGem name with
  | .error e => .error e
  | .ok info => .ok { info with Version := version, Name := name }

/-- The per-request body of `GetMultipleGemInfo`: call `GetGemInfo` and pack
the outcome into the result slot for that request. -/
def toResult (fetchGem : Str → Except Str GemInfo) (req : GemInfoRequest) :
    GemInfoResult :=
  match GetGemInfo fetchGem req.Name req.Version with
  | .ok info => { Request := req, Info := some info, Error := none }
  | .error e => { Request := req, Info := none, Error := some e }

/-- `GetMultipleGemInfo` from client.go, as its deterministic denotation:
slot `i` of the pre-sized result array is written exactly once, with a value
depending only on request `i`, so the join-barriered parallel loop computes
this map. -/
def GetMultipleGemInfo (fetchGem : Str → Except Str GemInfo)
    (requests : List GemInfoRequest) : List GemInfoResult :=
  requests.map (toResult fetchGem)

/-- Whether the fetch for a request fails. -/
def fetchFails (fetchGem : Str → Except Str GemInfo) (req : GemInfoRequest) : Bool :=
  match GetGemInfo fetchGem req.Name req.Version with
  | .ok _ => false
  | .error _ => true

/-! ### Batch coordinator concurrency model

The goroutine-per-request scheme of `GetMultipleGemInfo` is modelled as a
transition system: each task is not-started, running (holding a semaphore
slot), or done; a task may start only while fewer than 10 tasks are running
(`semaphore <- struct{}{}` on a channel of capacity 10), and the coordinator
may return only once every task is done (`wg.Wait()`). -/

/-- The lifecycle of one spawned task. -/
inductive TaskState where
  | notStarted
  | running
  | done
deriving DecidableEq, Repr

/-- Capacity of the semaphore channel: `make(chan struct{}, 10)`. -/
def maxConcurrent : Nat := 10

/-- Coordinator state: the task array plus whether `wg.Wait()` has
returned. -/
structure CoordState where
  tasks : List TaskState
  returned : Bool
deriving DecidableEq, Repr

/-- Number of tasks currently holding a semaphore slot. -/
def runningCount (s : List TaskState) : Nat :=
  s.countP (fun t => decide (t = TaskState.running))

/-- One scheduler step: acquire the semaphore (guarded by the capacity),
finish a running task (releasing its slot), or return once all tasks are
done. -/
inductive BatchStep : CoordState → CoordState → Prop where
  | acquire (s : CoordState) (i : Nat) :
      s.returned = false →
      s.tasks[i]? = some TaskState.notStarted →
      runningCount s.tasks < maxConcurrent →
      BatchStep s { tasks := s.tasks.set i TaskState.running, returned := false }
  | finish (s : CoordState) (i : Nat) :
      s.returned = false →
      s.tasks[i]? = some TaskState.running →
      BatchStep s { tasks := s.tasks.set i TaskState.done, returned := false }
  | ret (s : CoordState) :
      s.returned = false →
      (∀ t ∈ s.tasks, t = TaskState.done) →
      BatchStep s { tasks := s.tasks, returned := true }

/-- Reflexive-transitive closure of the scheduler step. -/
inductive BatchReach : CoordState → CoordState → Prop where
  | refl (s : CoordState) : BatchReach s s
  | tail {s t u : CoordState} : BatchReach s t → BatchStep t u → BatchReach s u

/-- Initial coordinator state for `n` requests. -/
def initCoord (n : Nat) : CoordState :=
  { tasks := List.replicate n TaskState.notStarted, returned := false }

/-- Fold over all states visited while resolving a list of hosts in order,
keeping only the final cache state. -/
def resolveAll (w : World) (eL eG : Bool) (hosts : List Str) (c : ConfigCache) : ConfigCache :=
  hosts.foldl (fun st h => (CredentialsForSt w eL eG h st).2) c

/-! ## Helper lemmas -/

theorem splitFirstColon_append (l r : Str) : ':' ∉ l →
    splitFirstColon (l ++ ':' :: r) = some (l, r) := by
  induction l with
  | nil => intro _; simp [splitFirstColon]
  | cons c cs ih =>
    intro hl
    have hc : ¬c = ':' := by
      intro h; subst h; exact hl (List.mem_cons_self _ _)
    have hcs : ':' ∉ cs := fun h => hl (List.mem_cons_of_mem _ h)
    simp [splitFirstColon, hc, ih hcs]

theorem splitFirstColon_none (v : Str) : ':' ∉ v → splitFirstColon v = none := by
  induction v with
  | nil => intro _; rfl
  | cons c cs ih =>
    intro hv
    have hc : ¬c = ':' := by
      intro h; subst h; exact hv (List.mem_cons_self _ _)
    have hcs : ':' ∉ cs := fun h => hv (List.mem_cons_of_mem _ h)
    simp [splitFirstColon, hc, ih hcs]

theorem parseCredentialValue_isSome (v : Str) (h : v ≠ []) :
    (parseCredentialValue v).isSome = true := by
  unfold parseCredentialValue
  rw [if_neg h]
  cases hs : splitFirstColon v with
  | none => rfl
  | some p =>
    obtain ⟨u, pw⟩ := p
    by_cases hu : u = tokenUsername <;> simp [hu]

theorem fstIdx_append (p : Char → Bool) (l r : Str) (x : Char) :
    (∀ c ∈ l, p c = false) → p x = true →
    fstIdx p (l ++ x :: r) = some l.length := by
  induction l with
  | nil => intro _ hx; simp [fstIdx, hx]
  | cons c cs ih =>
    intro hl hx
    have hc : p c = false := hl c (List.mem_cons_self _ _)
    have hcs : ∀ d ∈ cs, p d = false := fun d hd => hl d (List.mem_cons_of_mem _ hd)
    simp [fstIdx, hc, ih hcs hx]

theorem lastColonIdx_none (v : Str) : ':' ∉ v → lastColonIdx v = none := by
  induction v with
  | nil => intro _; rfl
  | cons c cs ih =>
    intro hv
    have hc : ¬c = ':' := by
      intro h; subst h; exact hv (List.mem_cons_self _ _)
    have hcs : ':' ∉ cs := fun h => hv (List.mem_cons_of_mem _ h)
    simp [lastColonIdx, ih hcs, hc]

theorem lastColonIdx_append (a b : Str) (hb : ':' ∉ b) :
    lastColonIdx (a ++ ':' :: b) = some a.length := by
  induction a with
  | nil => simp [lastColonIdx, lastColonIdx_none b hb]
  | cons c cs ih => simp [lastColonIdx, ih]

theorem countCh_eq_zero_of (s : Str) (c : Char) (h : c ∉ s) : countCh s c = 0 := by
  unfold countCh
  rw [List.countP_eq_zero]
  intro a ha
  simp only [decide_eq_true_eq]
  intro he
  exact h (he ▸ ha)

theorem countCh_one (a b : Str) (ha : ':' ∉ a) (hb : ':' ∉ b) :
    countCh (a ++ ':' :: b) ':' = 1 := by
  have h1 := countCh_eq_zero_of a ':' ha
  have h2 := countCh_eq_zero_of b ':' hb
  unfold countCh at *
  rw [List.countP_append, List.countP_cons, h1, h2]
  simp

theorem stripHostPort_bracketed (mid rest : Str) (h : ']' ∉ mid) :
    stripHostPort ('[' :: mid ++ ']' :: rest) = mid := by
  have hall : ∀ c ∈ '[' :: mid, (fun c => decide (c = ']')) c = false := by
    intro c hc
    simp only [decide_eq_false_iff_not]
    intro he
    subst he
    rcases List.mem_cons.mp hc with h1 | h1
    · exact absurd h1 (by decide)
    · exact h h1
  have hidx : fstIdx (fun c => decide (c = ']')) ('[' :: mid ++ ']' :: rest) =
      some (mid.length + 1) := by
    have h2 := fstIdx_append (fun c => decide (c = ']')) ('[' :: mid) rest ']' hall (by simp)
    simpa using h2
  unfold stripHostPort
  rw [if_pos (by simp)]
  rw [hidx]
  show List.drop 1 (List.take (mid.length + 1) ('[' :: mid ++ ']' :: rest)) = mid
  simp only [List.cons_append]
  rw [List.take_succ_cons]
  have ht : (mid ++ ']' :: rest).take mid.length = mid := List.take_left mid _
  rw [ht, List.drop_one, List.tail_cons]

theorem stripHostPort_onecolon (a b : Str) (ha : ':' ∉ a) (hb : ':' ∉ b)
    (hh : (a ++ ':' :: b).head? ≠ some '[') :
    stripHostPort (a ++ ':' :: b) = a := by
  unfold stripHostPort
  rw [if_neg hh, if_pos (countCh_one a b ha hb), lastColonIdx_append a b hb]
  exact List.take_left a _

theorem stripHostPort_id (h : Str) (hh : h.head? ≠ some '[') (hc : countCh h ':' ≠ 1) :
    stripHostPort h = h := by
  unfold stripHostPort
  rw [if_neg hh, if_neg hc]

/-! ## Claim theorems -/

/-- C2: `parseCredentialValue` returns no credential on the empty string; a
colon-free value becomes a bare token; otherwise the value splits only at
its first colon, giving a bearer token (with the sentinel username retained)
when the left part is the literal `any`, and basic auth with username = left
and password = right otherwise, so a password may contain colons. -/
theorem parseCredentialValue_spec :
    parseCredentialValue [] = none ∧
    (∀ v : Str, v ≠ [] → ':' ∉ v →
        parseCredentialValue v = some { Token := v }) ∧
    (∀ l r : Str, ':' ∉ l →
        parseCredentialValue (l ++ ':' :: r) =
          if l = tokenUsername then
            some { Username := tokenUsername, Password := r, Token := r }
          else
            some { Username := l, Password := r }) := by
  refine ⟨rfl, ?_, ?_⟩
  · intro v hv hc
    unfold parseCredentialValue
    rw [if_neg hv, splitFirstColon_none v hc]
  · intro l r hl
    have hne : l ++ ':' :: r ≠ [] := by simp
    unfold parseCredentialValue
    rw [if_neg hne, splitFirstColon_append l r hl]

/-- Witness for C2 at `"user:pass:word:with:colons"`. -/
theorem parseCredentialValue_spec_witness :
    parseCredentialValue (("user".toList) ++ ':' :: ("pass:word:with:colons".toList)) =
      some { Username := ("user".toList), Password := ("pass:word:with:colons".toList) } := by
  rw [parseCredentialValue_spec.2.2 ("user".toList) ("pass:word:with:colons".toList) (by decide)]
  decide

/-- C1: `CredentialsFor` checks sources in strict priority order: a
credential in the local config wins; otherwise a set, non-empty environment
variable at the transformed key is parsed and returned; otherwise the global
config's entry (or none) is returned. -/
theorem CredentialsFor_priority (lc gc : Option BundleConfig) (env : Str → Str) (host : Str) :
    (∀ cr, CredentialsForHost lc host = some cr →
        CredentialsFor lc gc env host = some cr) ∧
    (CredentialsForHost lc host = none → env (hostToEnvKey host) ≠ [] →
        CredentialsFor lc gc env host = parseCredentialValue (env (hostToEnvKey host)) ∧
        (parseCredentialValue (env (hostToEnvKey host))).isSome = true) ∧
    (CredentialsForHost lc host = none → env (hostToEnvKey host) = [] →
        CredentialsFor lc gc env host = CredentialsForHost gc host) := by
  refine ⟨?_, ?_, ?_⟩
  · intro cr h
    unfold CredentialsFor
    rw [h]
  · intro h he
    have hs := parseCredentialValue_isSome _ he
    obtain ⟨cr, hcr⟩ := Option.isSome_iff_exists.mp hs
    unfold CredentialsFor CredentialsFromEnv
    rw [h]
    simp [if_neg he, hcr]
  · intro h he
    unfold CredentialsFor CredentialsFromEnv
    rw [h]
    simp [he]

/-- Witness for C1: all three sources define a credential for
`rubygems.org` and the local config's value is returned. -/
theorem CredentialsFor_priority_witness :
    CredentialsFor
      (some ⟨[(("BUNDLE_RUBYGEMS__ORG".toList), { Token := ("ltok".toList) })]⟩)
      (some ⟨[(("BUNDLE_RUBYGEMS__ORG".toList), { Token := ("gtok".toList) })]⟩)
      (fun _ => ("etok".toList))
      ("rubygems.org".toList) = some { Token := ("ltok".toList) } :=
  (CredentialsFor_priority _ _ _ _).1 _ (by decide)

/-- C3: the host-to-key transform derives the key from the substring between
the first `[` and the first `]` for bracketed hosts; strips everything from
the colon onward for non-bracketed hosts with exactly one colon; and passes
non-bracketed hosts with more than one colon through unchanged to the
replacement step (`envKeyOf`). -/
theorem hostToEnvKey_cases :
    (∀ mid rest : Str, ']' ∉ mid →
        hostToEnvKey ('[' :: mid ++ ']' :: rest) = envKeyOf mid) ∧
    (∀ a b : Str, ':' ∉ a → ':' ∉ b → (a ++ ':' :: b).head? ≠ some '[' →
        hostToEnvKey (a ++ ':' :: b) = envKeyOf a) ∧
    (∀ h : Str, h.head? ≠ some '[' → 1 < countCh h ':' →
        hostToEnvKey h = envKeyOf h) := by
  refine ⟨?_, ?_, ?_⟩
  · intro mid rest h
    unfold hostToEnvKey
    rw [stripHostPort_bracketed mid rest h]
  · intro a b ha hb hh
    unfold hostToEnvKey
    rw [stripHostPort_onecolon a b ha hb hh]
  · intro h hh hc
    unfold hostToEnvKey
    rw [stripHostPort_id h hh (by omega)]

/-- Witness for C3: a bracketed IPv6 host with port, a `host:port` pair, and
an unbracketed IPv6 literal. -/
theorem hostToEnvKey_cases_witness :
    hostToEnvKey ('[' :: ("::1".toList) ++ ']' :: (":443".toList)) = envKeyOf ("::1".toList) ∧
    hostToEnvKey (("localhost".toList) ++ ':' :: ("8080".toList)) = envKeyOf ("localhost".toList) ∧
    hostToEnvKey ("2001:db8::1".toList) = envKeyOf ("2001:db8::1".toList) :=
  ⟨hostToEnvKey_cases.1 _ _ (by decide),
   hostToEnvKey_cases.2.1 _ _ (by decide) (by decide) (by decide),
   hostToEnvKey_cases.2.2 _ (by decide) (by decide)⟩

/-- C4: on a hostname with no colons and no brackets the transform strips
nothing: it replaces `.` by `__` and `-` by `___`, uppercases, and prepends
the `BUNDLE_` marker; in particular on `rubygems.org` and
`my-gems.example.com` it gives the documented keys. -/
theorem hostToEnvKey_plain :
    (∀ h : Str, ':' ∉ h → '[' ∉ h → ']' ∉ h →
        hostToEnvKey h =
          ("BUNDLE_".toList) ++
            List.map Char.toUpper
              (replaceAll (replaceAll h '.' ("__".toList)) '-' ("___".toList))) ∧
    hostToEnvKey ("rubygems.org".toList) = ("BUNDLE_RUBYGEMS__ORG".toList) ∧
    hostToEnvKey ("my-gems.example.com".toList) = ("BUNDLE_MY___GEMS__EXAMPLE__COM".toList) := by
  refine ⟨?_, by decide, by decide⟩
  intro h hc hbl hbr
  have hh : h.head? ≠ some '[' := by
    cases h with
    | nil => simp
    | cons x xs =>
      simp only [List.head?_cons, Ne, Option.some.injEq]
      intro hx
      subst hx
      exact hbl (List.mem_cons_self _ _)
  have hcnt : countCh h ':' ≠ 1 := by
    rw [countCh_eq_zero_of h ':' hc]
    omega
  unfold hostToEnvKey
  rw [stripHostPort_id h hh hcnt]
  rfl

/-- Witness for C4 at `abc.de-f`. -/
theorem hostToEnvKey_plain_witness :
    hostToEnvKey ("abc.de-f".toList) =
      ("BUNDLE_".toList) ++
        List.map Char.toUpper
          (replaceAll (replaceAll ("abc.de-f".toList) '.' ("__".toList)) '-' ("___".toList)) :=
  hostToEnvKey_plain.1 _ (by decide) (by decide) (by decide)

/-- C7: the config-file loader trims each line, skips blank lines, `#`
comments and the lone `---` marker (and lines without a colon), splits the
rest at the first colon, trims key and value, strips one layer of matching
surrounding quotes from the value exactly when both ends are the same quote
character and the value has length at least 2, and retains the entry iff the
key starts with `BUNDLE_`. -/
theorem parseBundleConfig_spec :
    (∀ (m : List (Str × Str)) (raw : Str),
        trimSpace raw = [] ∨ (trimSpace raw).head? = some '#' ∨
          trimSpace raw = ("---".toList) →
        processLine m raw = m) ∧
    (∀ (m : List (Str × Str)) (raw : Str), ':' ∉ trimSpace raw →
        processLine m raw = m) ∧
    (∀ (m : List (Str × Str)) (raw k v : Str),
        trimSpace raw = k ++ ':' :: v → ':' ∉ k →
        (trimSpace raw).head? ≠ some '#' → trimSpace raw ≠ ("---".toList) →
        processLine m raw =
          if ("BUNDLE_".toList).isPrefixOf (trimSpace k) then
            alInsert m (trimSpace k) (trimQuotes (trimSpace v))
          else m) ∧
    (∀ (s : Str) (q : Char), q = '"' ∨ q = '\'' → 2 ≤ s.length →
        s.head? = some q → s.getLast? = some q →
        trimQuotes s = (s.drop 1).dropLast) ∧
    (∀ s : Str,
        ¬(2 ≤ s.length ∧
            ((s.head? = some '"' ∧ s.getLast? = some '"') ∨
             (s.head? = some '\'' ∧ s.getLast? = some '\''))) →
        trimQuotes s = s) ∧
    (∀ data : Str,
        parseBundleConfigYAML data false = (splitLines data).foldl processLine []) := by
  refine ⟨?_, ?_, ?_, ?_, ?_, ?_⟩
  · intro m raw hskip
    simp only [processLine]
    rw [if_pos hskip]
  · intro m raw hc
    simp only [processLine]
    by_cases hskip : trimSpace raw = [] ∨ (trimSpace raw).head? = some '#' ∨
        trimSpace raw = ("---".toList)
    · rw [if_pos hskip]
    · rw [if_neg hskip, splitFirstColon_none _ hc]
  · intro m raw k v hline hk hhash hdash
    have hne : trimSpace raw ≠ [] := by rw [hline]; simp
    have hskip : ¬(trimSpace raw = [] ∨ (trimSpace raw).head? = some '#' ∨
        trimSpace raw = ("---".toList)) := by
      rintro (h1 | h2 | h3)
      exacts [hne h1, hhash h2, hdash h3]
    simp only [processLine]
    rw [if_neg hskip, hline, splitFirstColon_append k v hk]
  · intro s q hq h2 hh hl
    unfold trimQuotes
    rw [if_pos]
    refine ⟨h2, ?_⟩
    rcases hq with rfl | rfl
    · exact Or.inl ⟨hh, hl⟩
    · exact Or.inr ⟨hh, hl⟩
  · intro s hcond
    unfold trimQuotes
    rw [if_neg hcond]
  · intro data
    simp [parseBundleConfigYAML]

/-- Witness for C7 on the line `  BUNDLE_GEMS__X: 'tok'`. -/
theorem parseBundleConfig_spec_witness :
    processLine [] ("  BUNDLE_GEMS__X: 'tok'".toList) =
      if ("BUNDLE_".toList).isPrefixOf (trimSpace ("BUNDLE_GEMS__X".toList)) then
        alInsert [] (trimSpace ("BUNDLE_GEMS__X".toList))
          (trimQuotes (trimSpace (" 'tok'".toList)))
      else [] :=
  parseBundleConfig_spec.2.2.1 [] _ _ _ (by decide) (by decide) (by decide) (by decide)

theorem addCredential_eq_nil (m : List (Str × Credentials)) (kv : Str × Str) :
    addCredential m kv = [] ↔ m = [] ∧ parseCredentialValue kv.2 = none := by
  unfold addCredential
  cases h : parseCredentialValue kv.2 with
  | none => simp
  | some c => simp [alInsert]

theorem foldl_addCredential_eq_nil (l : List (Str × Str)) :
    ∀ m : List (Str × Credentials),
      l.foldl addCredential m = [] ↔
        m = [] ∧ ∀ kv ∈ l, parseCredentialValue kv.2 = none := by
  induction l with
  | nil => intro m; simp
  | cons kv l ih =>
    intro m
    rw [List.foldl_cons, ih, addCredential_eq_nil]
    constructor
    · rintro ⟨⟨h1, h2⟩, h3⟩
      refine ⟨h1, ?_⟩
      intro x hx
      rcases List.mem_cons.mp hx with rfl | hx
      · exact h2
      · exact h3 x hx
    · rintro ⟨h1, h2⟩
      exact ⟨⟨h1, h2 kv (List.mem_cons_self _ _)⟩,
        fun x hx => h2 x (List.mem_cons_of_mem _ hx)⟩

/-- C8: a failed read leaves that config absent; a scan failure yields an
empty mapping; a file whose parse yields zero credential entries is treated
as an absent config; and resolution against an absent config yields no
credential, so that step is skipped. -/
theorem config_error_handling :
    (∀ (w : World) (eL eG : Bool), w.localFile = none → (loadConfigs w eL eG).1 = none) ∧
    (∀ (w : World) (eL eG : Bool), w.globalFile = none → (loadConfigs w eL eG).2 = none) ∧
    (∀ data : Str, parseBundleConfigYAML data true = []) ∧
    (∀ (data : Str) (e : Bool),
        parseConfigFile data e = none ↔
          ∀ kv ∈ parseBundleConfigYAML data e, parseCredentialValue kv.2 = none) ∧
    (∀ host : Str, CredentialsForHost none host = none) := by
  refine ⟨?_, ?_, ?_, ?_, ?_⟩
  · intro w eL eG h
    simp [loadConfigs, h]
  · intro w eL eG h
    simp [loadConfigs, h]
  · intro data
    simp [parseBundleConfigYAML]
  · intro data e
    simp only [parseConfigFile]
    by_cases hc : (parseBundleConfigYAML data e).foldl addCredential [] = []
    · rw [if_pos hc]
      simp only [true_iff]
      exact ((foldl_addCredential_eq_nil _ _).mp hc).2
    · rw [if_neg hc]
      simp only [reduceCtorEq, false_iff]
      intro h
      exact hc ((foldl_addCredential_eq_nil _ _).mpr ⟨rfl, h⟩)
  · intro host
    rfl

/-- Witness for C8: a world whose local config file fails to read resolves
to an absent local config. -/
theorem config_error_handling_witness :
    (loadConfigs
      { localFile := none, globalFile := some ("BUNDLE_A: t".toList), env := fun _ => [] }
      false false).1 = none :=
  config_error_handling.1 _ false false rfl

theorem onceDo_loadedOnce (w : World) (eL eG : Bool) (c : ConfigCache) :
    (onceDo w eL eG c).loadedOnce = true := by
  unfold onceDo
  by_cases h : c.loadedOnce = true <;> simp [h]

theorem onceDo_of_loaded (w : World) (eL eG : Bool) (c : ConfigCache)
    (h : c.loadedOnce = true) : onceDo w eL eG c = c := by
  unfold onceDo
  rw [if_pos h]

theorem onceDo_idem (w : World) (eL eG : Bool) (c : ConfigCache) :
    onceDo w eL eG (onceDo w eL eG c) = onceDo w eL eG c :=
  onceDo_of_loaded w eL eG _ (onceDo_loadedOnce w eL eG c)

theorem onceDo_loadCount (w : World) (eL eG : Bool) (c : ConfigCache) :
    (onceDo w eL eG c).loadCount ≤ c.loadCount + 1 := by
  unfold onceDo
  by_cases h : c.loadedOnce = true <;> simp [h]

theorem CredentialsForSt_snd (w : World) (eL eG : Bool) (host : Str) (c : ConfigCache) :
    (CredentialsForSt w eL eG host c).2 = onceDo w eL eG c := rfl

theorem resolveAll_of_loaded (w : World) (eL eG : Bool) (hosts : List Str) :
    ∀ c : ConfigCache, c.loadedOnce = true → resolveAll w eL eG hosts c = c := by
  induction hosts with
  | nil => intro c _; rfl
  | cons x xs ih =>
    intro c h
    have hstep : (CredentialsForSt w eL eG x c).2 = c := by
      rw [CredentialsForSt_snd, onceDo_of_loaded w eL eG c h]
    calc resolveAll w eL eG (x :: xs) c
        = resolveAll w eL eG xs (CredentialsForSt w eL eG x c).2 := rfl
      _ = resolveAll w eL eG xs c := by rw [hstep]
      _ = c := ih c h

/-- C9: resolving the same host twice without a reset returns the identical
result and leaves the cache unchanged; any number of resolutions runs
`loadConfigs` (which parses both config files) at most once — from a fresh
process, at most one parse ever happens; and after the test-only reset the
next resolution parses again. -/
theorem credentialsFor_memoized (w : World) (eL eG : Bool) (host : Str)
    (c : ConfigCache) (hosts : List Str) :
    (CredentialsForSt w eL eG host ((CredentialsForSt w eL eG host c).2)).1 =
      (CredentialsForSt w eL eG host c).1 ∧
    (CredentialsForSt w eL eG host ((CredentialsForSt w eL eG host c).2)).2 =
      (CredentialsForSt w eL eG host c).2 ∧
    (resolveAll w eL eG hosts c).loadCount ≤ c.loadCount + 1 ∧
    (resolveAll w eL eG hosts initialCache).loadCount ≤ 1 ∧
    (ResetConfigCache (CredentialsForSt w eL eG host c).2).loadedOnce = false ∧
    (CredentialsForSt w eL eG host
        (ResetConfigCache (CredentialsForSt w eL eG host c).2)).2.loadCount =
      (CredentialsForSt w eL eG host c).2.loadCount + 1 := by
  have hidem := onceDo_idem w eL eG c
  have hcount : ∀ c' : ConfigCache,
      (resolveAll w eL eG hosts c').loadCount ≤ c'.loadCount + 1 := by
    intro c'
    cases hosts with
    | nil => simp [resolveAll]
    | cons x xs =>
      have h1 : resolveAll w eL eG (x :: xs) c' =
          resolveAll w eL eG xs (onceDo w eL eG c') := rfl
      rw [h1, resolveAll_of_loaded w eL eG xs _ (onceDo_loadedOnce w eL eG c')]
      exact onceDo_loadCount w eL eG c'
  refine ⟨?_, ?_, hcount c, ?_, rfl, ?_⟩
  · show (CredentialsForSt w eL eG host (onceDo w eL eG c)).1 = _
    unfold CredentialsForSt
    rw [hidem]
  · rw [CredentialsForSt_snd, CredentialsForSt_snd]
    exact hidem
  · have h2 := hcount initialCache
    simpa [initialCache] using h2
  · rw [CredentialsForSt_snd, CredentialsForSt_snd]
    show (onceDo w eL eG (ResetConfigCache (onceDo w eL eG c))).loadCount = _
    unfold onceDo ResetConfigCache
    simp

theorem toResult_error_isSome (f : Str → Except Str GemInfo) (req : GemInfoRequest) :
    (toResult f req).Error.isSome = fetchFails f req := by
  unfold toResult fetchFails
  cases h : GetGemInfo f req.Name req.Version <;> simp

theorem toResult_info_isSome (f : Str → Except Str GemInfo) (req : GemInfoRequest) :
    (toResult f req).Info.isSome = !fetchFails f req := by
  unfold toResult fetchFails
  cases h : GetGemInfo f req.Name req.Version <;> simp

/-- C5: the batch fetch returns one result per request at the same index,
each pairing the original request with exactly one of a record or an error;
the number of error results equals the number of failing fetches and the
rest carry records; each result depends only on its own request. -/
theorem GetMultipleGemInfo_spec (f : Str → Except Str GemInfo)
    (requests : List GemInfoRequest) :
    (GetMultipleGemInfo f requests).length = requests.length ∧
    (∀ (i : Nat) (req : GemInfoRequest), requests[i]? = some req →
        (GetMultipleGemInfo f requests)[i]? = some (toResult f req)) ∧
    (∀ req : GemInfoRequest,
        (toResult f req).Request = req ∧
        (((toResult f req).Info.isSome = true ∧ (toResult f req).Error = none) ∨
         ((toResult f req).Info = none ∧ (toResult f req).Error.isSome = true))) ∧
    ((GetMultipleGemInfo f requests).countP (fun r => r.Error.isSome) =
        requests.countP (fetchFails f)) ∧
    ((GetMultipleGemInfo f requests).countP (fun r => r.Info.isSome) =
        requests.length - requests.countP (fetchFails f)) := by
  have hcomp2 : ((fun (r : GemInfoResult) => r.Info.isSome) ∘ toResult f) =
      (fun req => !fetchFails f req) := by
    funext req
    exact toResult_info_isSome f req
  have hnot : (fun req => !fetchFails f req) =
      (fun req => decide ¬(fetchFails f req = true)) := by
    funext req
    cases h : fetchFails f req <;> simp
  have key : (requests.map (toResult f)).countP (fun r => r.Info.isSome) +
      requests.countP (fetchFails f) = requests.length := by
    rw [List.countP_map, hcomp2, hnot]
    have h3 := List.length_eq_countP_add_countP (fetchFails f) requests
    omega
  refine ⟨?_, ?_, ?_, ?_, ?_⟩
  · simp [GetMultipleGemInfo]
  · intro i req h
    simp [GetMultipleGemInfo, List.getElem?_map, h]
  · intro req
    unfold toResult
    cases h : GetGemInfo f req.Name req.Version with
    | ok info => exact ⟨rfl, Or.inl ⟨rfl, rfl⟩⟩
    | error e => exact ⟨rfl, Or.inr ⟨rfl, rfl⟩⟩
  · have hcomp : ((fun (r : GemInfoResult) => r.Error.isSome) ∘ toResult f) =
        fetchFails f := by
      funext req
      exact toResult_error_isSome f req
    show (requests.map (toResult f)).countP (fun r => r.Error.isSome) = _
    rw [List.countP_map, hcomp]
  · show (requests.map (toResult f)).countP (fun r => r.Info.isSome) = _
    omega

/-- Witness for C5: a two-request batch where the second fetch fails; the
result at index 1 is the packed outcome of that request alone. -/
theorem GetMultipleGemInfo_spec_witness :
    (GetMultipleGemInfo
        (fun n => if n = ("bad".toList) then Except.error ("boom".toList)
          else Except.ok ⟨n, ("9".toList), ⟨[], []⟩⟩)
        [⟨("a".toList), ("1".toList)⟩, ⟨("bad".toList), ("2".toList)⟩])[1]? =
      some (toResult
        (fun n => if n = ("bad".toList) then Except.error ("boom".toList)
          else Except.ok ⟨n, ("9".toList), ⟨[], []⟩⟩)
        ⟨("bad".toList), ("2".toList)⟩) :=
  (GetMultipleGemInfo_spec _ _).2.1 1 _ (by decide)

/-- C10: a successful `GetGemInfo` unconditionally overwrites the decoded
record's `Name` and `Version` with the requested ones; only the dependency
lists come from the server response. -/
theorem GetGemInfo_overrides (f : Str → Except Str GemInfo) (name version : Str)
    (info : GemInfo) (h : f name = Except.ok info) :
    GetGemInfo f name version =
      Except.ok ⟨name, version, info.Dependencies⟩ := by
  unfold GetGemInfo
  rw [h]

/-- Witness for C10: the server reports a different name and version; the
returned record carries the requested ones. -/
theorem GetGemInfo_overrides_witness :
    GetGemInfo
      (fun _ => Except.ok ⟨("server-name".toList), ("0.0.1".toList), ⟨[], []⟩⟩)
      ("rails".toList) ("7.1.0".toList) =
      Except.ok ⟨("rails".toList), ("7.1.0".toList), ⟨[], []⟩⟩ :=
  GetGemInfo_overrides _ _ _ _ rfl

theorem countP_set_eq (p : TaskState → Bool) (s : List TaskState) :
    ∀ (i : Nat) (v w : TaskState), s[i]? = some v →
      (s.set i w).countP p + (if p v then 1 else 0) =
        s.countP p + (if p w then 1 else 0) := by
  induction s with
  | nil => intro i v w h; simp at h
  | cons a t ih =>
    intro i v w h
    cases i with
    | zero =>
      simp only [List.getElem?_cons_zero, Option.some.injEq] at h
      subst h
      simp only [List.set_cons_zero, List.countP_cons]
      split_ifs <;> omega
    | succ n =>
      simp only [List.getElem?_cons_succ] at h
      have h2 := ih n v w h
      simp only [List.set_cons_succ, List.countP_cons]
      omega

/-- C6: along every schedule of the batch coordinator, at most 10 fetches
hold the semaphore at any time, and the coordinator can be in the returned
state only when every spawned task is done. -/
theorem batch_concurrency (n : Nat) (s : CoordState)
    (hreach : BatchReach (initCoord n) s) :
    runningCount s.tasks ≤ maxConcurrent ∧
    (s.returned = true → ∀ t ∈ s.tasks, t = TaskState.done) := by
  induction hreach with
  | refl =>
    constructor
    · simp [initCoord, runningCount, List.countP_replicate, maxConcurrent]
    · intro h
      simp [initCoord] at h
  | tail hr step ih =>
    cases step with
    | acquire i h1 h2 h3 =>
      constructor
      · have h4 := countP_set_eq (fun t => decide (t = TaskState.running))
          _ i TaskState.notStarted TaskState.running h2
        simp at h4
        have h5 := ih.1
        unfold runningCount maxConcurrent at *
        dsimp only
        omega
      · intro h
        simp at h
    | finish i h1 h2 =>
      constructor
      · have h4 := countP_set_eq (fun t => decide (t = TaskState.running))
          _ i TaskState.running TaskState.done h2
        simp at h4
        have h5 := ih.1
        unfold runningCount maxConcurrent at *
        dsimp only
        omega
      · intro h
        simp at h
    | ret h1 h2 =>
      exact ⟨ih.1, fun _ => h2⟩

/-- Witness for C6: the complete one-task schedule acquire→finish→return
reaches the returned state within the concurrency bound. -/
theorem batch_concurrency_witness :
    runningCount ({ tasks := [TaskState.done], returned := true } : CoordState).tasks ≤
      maxConcurrent := by
  have st1 : BatchStep (initCoord 1) { tasks := [TaskState.running], returned := false } :=
    BatchStep.acquire (initCoord 1) 0 rfl rfl (by decide)
  have st2 : BatchStep { tasks := [TaskState.running], returned := false }
      { tasks := [TaskState.done], returned := false } :=
    BatchStep.finish _ 0 rfl rfl
  have st3 : BatchStep { tasks := [TaskState.done], returned := false }
      { tasks := [TaskState.done], returned := true } :=
    BatchStep.ret _ rfl (by decide)
  have hreach : BatchReach (initCoord 1) { tasks := [TaskState.done], returned := true } :=
    BatchReach.tail (BatchReach.tail (BatchReach.tail (BatchReach.refl _) st1) st2) st3
  exact (batch_concurrency 1 _ hreach).1

end RubygemsClient
